import Mathlib

/-!
Shallow embedding of `src/heat_solver_utils.py` (kneco/sui-heat-flow-solver).

The repository exposes file-access helpers over two on-disk resources:
a JSON equipment-configuration document and a CSV time-series table.
We embed the parsed forms of both resources and the five accessor
functions, keeping the Python control flow (scan order, first-match-wins,
in-place dict update, `csv.DictWriter` rewrite including its mid-write
failure on rows that contain keys absent from the header).

Modelling conventions:
* A CSV row, as produced by `csv.DictReader`, is an ordered association
  list from column name to cell text (Python dicts preserve insertion
  order).  Cell values are kept as their raw cell text; the Python
  boundary conversion `float(...)` / `str(...)` is outside the model,
  so scalars supplied to the writer are represented by their rendered
  text.
* Python exceptions become an explicit error type.  Constructors record
  the concrete exception site in the source; the two predicates
  `Err.isNotFoundError` and `Err.isParseOrIoError` give the two error
  kinds of the specification.
* File-system effects are explicit: the writer returns the persisted
  table next to its result, so a `DictWriter` failure that truncates
  the file mid-rewrite is visible in the model.
-/

/-- Errors raised by the Python helpers, by concrete raise site:
`fileNotFound` (`open` on a missing file), `jsonParseError`
(`json.load` on a malformed document), `typeError` (indexing a
non-dict / unpacking a non-sequence), `configKeyError` (`KeyError`
from `config[...]`), `timestampNotFound` (the `ValueError` raised by
`read_timeseries` / `write_timeseries`), `csvKeyError` (`KeyError`
from `row[...]` when a CSV column is absent), `csvExtraFields`
(the `ValueError` raised by `csv.DictWriter` when a row dict contains
keys not in the fieldnames). -/
inductive Err where
  | fileNotFound
  | jsonParseError
  | typeError
  | configKeyError (key : String)
  | timestampNotFound (ts : String)
  | csvKeyError (key : String)
  | csvExtraFields (keys : List String)
deriving DecidableEq

/-- Classification of errors as the specification's `NotFoundError`
kind: a requested timestamp or configuration field absent, or the
backing document absent (`FileNotFoundError`). -/
def Err.isNotFoundError : Err → Bool
  | .fileNotFound => true
  | .configKeyError _ => true
  | .timestampNotFound _ => true
  | _ => false

/-- Classification of errors as the specification's `ParseError/IOError`
kind: malformed document or column schema mismatch. -/
def Err.isParseOrIoError : Err → Bool
  | .jsonParseError => true
  | .csvKeyError _ => true
  | .csvExtraFields _ => true
  | _ => false

/-- A CSV row as produced by `csv.DictReader`: an ordered association
list from column name to cell text (Python dict, insertion ordered). -/
abbrev Row : Type := List (String × String)

/-- `findVal r k` is Python `r.get(k)`: the value of the first (unique,
for a genuine dict) entry with key `k`. -/
def findVal (r : Row) (k : String) : Option String :=
  (r.find? (fun p => p.1 == k)).map (fun p => p.2)

/-- `getValD r k d` is Python `r.get(k, d)`. -/
def getValD (r : Row) (k d : String) : String :=
  (findVal r k).getD d

/-- `setVal r k v` is Python `r[k] = v` on an insertion-ordered dict:
if the key is present its value is replaced in place, otherwise the
new entry is appended at the end. -/
def setVal (r : Row) (k v : String) : Row :=
  if r.any (fun p => p.1 == k) then
    r.map (fun p => if p.1 == k then (k, v) else p)
  else r ++ [(k, v)]

/-- The parsed time-series CSV file: the header (`reader.fieldnames`)
and the data rows in file order. -/
structure Table where
  fieldnames : List String
  rows : List Row
deriving DecidableEq

/-- Well-formedness of a time-series file per the specification's
external-interface section: distinct columns, the required columns
`time`, `t2`, `F2` present, and every data line providing exactly one
cell per column (so each `DictReader` row has the fieldnames as keys,
in header order). -/
def Table.WF (t : Table) : Prop :=
  t.fieldnames.Nodup ∧ "time" ∈ t.fieldnames ∧ "t2" ∈ t.fieldnames ∧
    "F2" ∈ t.fieldnames ∧ ∀ r ∈ t.rows, r.map Prod.fst = t.fieldnames

instance (t : Table) : Decidable t.WF := by
  unfold Table.WF
  infer_instance

/-- The scan loop of `read_timeseries` (source lines 52-58): rows are
visited in file order; `row['time']` raises `KeyError` when the column
is absent; the first row whose key matches returns
`(row['t2'], row['F2'])`; exhausting the rows raises the not-found
`ValueError`. -/
def readRows : List Row → String → Except Err (String × String)
  | [], ts => .error (.timestampNotFound ts)
  | r :: rs, ts =>
    match findVal r "time" with
    | none => .error (.csvKeyError "time")
    | some t =>
      if t = ts then
        match findVal r "t2" with
        | none => .error (.csvKeyError "t2")
        | some t2v =>
          match findVal r "F2" with
          | none => .error (.csvKeyError "F2")
          | some f2v => .ok (t2v, f2v)
      else readRows rs ts

/-- `read_timeseries` (source lines 38-58). -/
def read_timeseries (tbl : Table) (ts : String) : Except Err (String × String) :=
  readRows tbl.rows ts

/-- `read_timeseries_t2` (source lines 26-29): destructures the pair
returned by `read_timeseries` and returns the temperature. -/
def read_timeseries_t2 (tbl : Table) (ts : String) : Except Err String := do
  let p ← read_timeseries tbl ts
  pure p.1

/-- `read_timeseries_f2` (source lines 32-35): destructures the pair
returned by `read_timeseries` and returns the flow. -/
def read_timeseries_f2 (tbl : Table) (ts : String) : Except Err String := do
  let p ← read_timeseries tbl ts
  pure p.2

/-- The ten optional keyword arguments of `write_timeseries`
(source lines 104-113), each `None` (not supplied) or a scalar,
represented by its rendered text. -/
structure WriteArgs where
  total_heat_load : Option String
  total_power : Option String
  hp1_load : Option String
  hp1_power : Option String
  hp2_load : Option String
  hp2_power : Option String
  pump1_load : Option String
  pump1_power : Option String
  pump2_load : Option String
  pump2_power : Option String
deriving DecidableEq

/-- The ten optional fields in the order the ten `if ... is not None`
statements of `write_timeseries` test them (source lines 143-162). -/
def WriteArgs.fieldsList (a : WriteArgs) : List (String × Option String) :=
  [("total_heat_load", a.total_heat_load), ("total_power", a.total_power),
   ("hp1_load", a.hp1_load), ("hp1_power", a.hp1_power),
   ("hp2_load", a.hp2_load), ("hp2_power", a.hp2_power),
   ("pump1_load", a.pump1_load), ("pump1_power", a.pump1_power),
   ("pump2_load", a.pump2_load), ("pump2_power", a.pump2_power)]

/-- The names of the fields actually supplied to a write call. -/
def suppliedKeys (a : WriteArgs) : List String :=
  (a.fieldsList.filter (fun kv => kv.2.isSome)).map Prod.fst

/-- One `if x is not None: row[k] = x` statement. -/
def applyField (r : Row) (kv : String × Option String) : Row :=
  match kv.2 with
  | some v => setVal r kv.1 v
  | none => r

/-- The body of the update branch of `write_timeseries`
(source lines 143-162): the ten conditional assignments in order. -/
def updateRow (r : Row) (a : WriteArgs) : Row :=
  a.fieldsList.foldl applyField r

/-- The update loop of `write_timeseries` (source lines 140-167):
scan rows in order (`row['time']` may raise `KeyError`), update the
first matching row in place and `break`; if no row matched, raise the
not-found `ValueError`. -/
def updateRows : List Row → String → WriteArgs → Except Err (List Row)
  | [], ts, _ => .error (.timestampNotFound ts)
  | r :: rs, ts, a =>
    match findVal r "time" with
    | none => .error (.csvKeyError "time")
    | some t =>
      if t = ts then .ok (updateRow r a :: rs)
      else (updateRows rs ts a).map (fun rs2 => r :: rs2)

/-- `csv.DictWriter`'s projection of a row dict onto the fieldnames:
one cell per column, missing keys filled with the default restval. -/
def projRow (fns : List String) (r : Row) : Row :=
  fns.map (fun f => (f, getValD r f ""))

/-- The keys of a row dict that are not among the fieldnames —
`DictWriter`'s `wrong_fields` check. -/
def extraKeys (fns : List String) (r : Row) : List String :=
  (r.map Prod.fst).filter (fun k => !(fns.contains k))

/-- The rewrite phase of `write_timeseries` (source lines 170-173):
`open(..., 'w')` truncates the file, `writeheader` emits the header,
and `writerows` emits each row in order, raising `ValueError` at the
first row whose dict holds keys not in the fieldnames; rows already
emitted stay in the file.  Returns the writer's result together with
the data rows left on disk. -/
def persist (fns : List String) : List Row → Except Err Unit × List Row
  | [] => (.ok (), [])
  | r :: rs =>
    if extraKeys fns r = [] then
      ((persist fns rs).1, projRow fns r :: (persist fns rs).2)
    else (.error (.csvExtraFields (extraKeys fns r)), [])

/-- `write_timeseries` (source lines 101-173): read all rows, update
the first row matching the timestamp (raising before any write when
the scan fails), then rewrite the whole file.  Returns the call's
result together with the persisted file: on a scan failure the file
is untouched; on a `DictWriter` failure the file holds the rows
written before the failing one. -/
def write_timeseries (tbl : Table) (ts : String) (a : WriteArgs) :
    Except Err Unit × Table :=
  match updateRows tbl.rows ts a with
  | .error e => (.error e, tbl)
  | .ok rows2 =>
    ((persist tbl.fieldnames rows2).1,
     ⟨tbl.fieldnames, (persist tbl.fieldnames rows2).2⟩)

/-- The timestamp keys of the rows of a table, in file order. -/
def rowKeys (tbl : Table) : List String :=
  tbl.rows.filterMap (fun r => findVal r "time")

/-- A sequence of `write_timeseries` calls applied to the persisted
file in order, each seeing the file the previous call left behind. -/
def applyWrites (tbl : Table) (ops : List (String × WriteArgs)) : Table :=
  ops.foldl (fun t op => (write_timeseries t op.1 op.2).2) tbl

/-- A parsed JSON value as `json.load` produces it: Python keeps
JSON objects as insertion-ordered dicts, arrays as lists, and splits
numbers into `int` and `float`. -/
inductive JValue where
  | jnull
  | jbool (b : Bool)
  | jint (n : Int)
  | jnum (q : ℚ)
  | jstr (s : String)
  | jarr (elems : List JValue)
  | jobj (fields : List (String × JValue))

/-- Python subscript `j[k]` on a parsed JSON value: on a dict, the
entry for `k` or `KeyError`; on anything else, `TypeError`. -/
def jGet : JValue → String → Except Err JValue
  | .jobj fs, k =>
    match fs.find? (fun p => p.1 == k) with
    | some p => .ok p.2
    | none => .error (.configKeyError k)
  | _, _ => .error .typeError

/-- The state of the configuration file as the readers find it:
absent, present but malformed, or parsed. -/
inductive ConfigFile where
  | missing
  | malformed
  | parsed (j : JValue)

/-- The shared `open` + `json.load` prelude of the configuration
readers (source lines 21-22, 72-73, 96-97). -/
def loadConfig : ConfigFile → Except Err JValue
  | .missing => .error .fileNotFound
  | .malformed => .error .jsonParseError
  | .parsed j => .ok j

/-- `get_equipment_count` (source lines 11-23): load the document and
return `config['heat_pumps']['count']`. -/
def get_equipment_count (c : ConfigFile) : Except Err JValue := do
  let config ← loadConfig c
  let hp ← jGet config "heat_pumps"
  jGet hp "count"

/-- `get_hp_characteristics` (source lines 61-81): load the document,
read the power-consumption sequence, supply temperature and load
limits, and return the tuple `(*powers, t_supply, load_min, load_max)`
— the unpack raising `TypeError` when `powers` is not a sequence. -/
def get_hp_characteristics (c : ConfigFile) : Except Err (List JValue) := do
  let config ← loadConfig c
  let hp ← jGet config "heat_pumps"
  let ch ← jGet hp "characteristics"
  let powers ← jGet ch "power_consumption"
  let t_supply ← jGet hp "supply_temperature"
  let ll ← jGet hp "load_limits"
  let load_min ← jGet ll "min"
  let load_max ← jGet ll "max"
  match powers with
  | .jarr ps => pure (ps ++ [t_supply, load_min, load_max])
  | _ => .error .typeError

/-- `get_pump_characteristics` (source lines 84-98): load the document
and return `config['pumps']['rated_power']`. -/
def get_pump_characteristics (c : ConfigFile) : Except Err JValue := do
  let config ← loadConfig c
  let pumps ← jGet config "pumps"
  jGet pumps "rated_power"

/-- Column schema of a small sample time-series file: the required
columns and one optional output column. -/
def sampleFns : List String := ["time", "t2", "F2", "hp1_load"]

/-- First sample row, matching the specification's example row. -/
def rowA : Row :=
  [("time", "202512071900"), ("t2", "45.0"), ("F2", "120.0"), ("hp1_load", "")]

/-- Second sample row. -/
def rowB : Row :=
  [("time", "202512072000"), ("t2", "46.0"), ("F2", "121.0"), ("hp1_load", "")]

/-- A small sample time-series table with two rows. -/
def sampleTable : Table := ⟨sampleFns, [rowA, rowB]⟩

/-- A write call supplying only `hp1_load=80.0`. -/
def hp1OnlyArgs : WriteArgs :=
  ⟨none, none, some "80.0", none, none, none, none, none, none, none⟩

/-- A write call supplying only `total_heat_load=9.0` — a column the
sample table does not have. -/
def thlOnlyArgs : WriteArgs :=
  ⟨some "9.0", none, none, none, none, none, none, none, none, none⟩

/-- A write call supplying no field at all. -/
def noneArgs : WriteArgs :=
  ⟨none, none, none, none, none, none, none, none, none, none⟩

/-- A sample parsed equipment-configuration document with two
heat-pump units, a six-point power curve, supply temperature and load
limits, and a pump rated power. -/
def sampleConfig : JValue :=
  .jobj [("heat_pumps", .jobj
    [("count", .jint 2),
     ("characteristics", .jobj [("power_consumption",
       .jarr [.jnum 10, .jnum 20, .jnum 30, .jnum 40, .jnum 50, .jnum 60])]),
     ("supply_temperature", .jnum 7),
     ("load_limits", .jobj [("min", .jnum 20), ("max", .jnum 100)])]),
   ("pumps", .jobj [("rated_power", .jnum 5)])]

example : read_timeseries sampleTable "202512072000" = .ok ("46.0", "121.0") := rfl
example : read_timeseries sampleTable "X" = .error (.timestampNotFound "X") := rfl
example : read_timeseries_t2 sampleTable "202512071900" = .ok "45.0" := rfl
example :
    write_timeseries sampleTable "202512071900" hp1OnlyArgs =
      (.ok (), ⟨sampleFns,
        [[("time", "202512071900"), ("t2", "45.0"), ("F2", "120.0"), ("hp1_load", "80.0")],
         rowB]⟩) := rfl
example :
    write_timeseries sampleTable "202512071900" thlOnlyArgs =
      (.error (.csvExtraFields ["total_heat_load"]), ⟨sampleFns, []⟩) := rfl
example :
    write_timeseries sampleTable "202512072000" thlOnlyArgs =
      (.error (.csvExtraFields ["total_heat_load"]),
       ⟨sampleFns, [projRow sampleFns rowA]⟩) := rfl
example : write_timeseries sampleTable "X" noneArgs = (.error (.timestampNotFound "X"), sampleTable) := rfl
example : sampleTable.WF := by decide
example :
    get_equipment_count (.parsed (.jobj [("heat_pumps", .jobj [("count", .jint 2)])])) =
      .ok (.jint 2) := rfl

theorem findVal_cons (p : String × String) (r : Row) (k : String) :
    findVal (p :: r) k = if p.1 = k then some p.2 else findVal r k := by
  by_cases h : p.1 = k
  · unfold findVal
    rw [List.find?_cons_of_pos _ (by simpa using h)]
    simp [h]
  · unfold findVal
    rw [List.find?_cons_of_neg _ (by simpa using h)]
    simp [h, findVal]

theorem findVal_nil (k : String) : findVal [] k = none := rfl

theorem any_key_iff (r : Row) (k : String) :
    r.any (fun p => p.1 == k) = true ↔ k ∈ r.map Prod.fst := by
  rw [List.any_eq_true]
  constructor
  · rintro ⟨p, hp, hpk⟩
    exact List.mem_map.mpr ⟨p, hp, by simpa using hpk⟩
  · intro hk
    obtain ⟨p, hp, hpk⟩ := List.mem_map.mp hk
    exact ⟨p, hp, by simpa using hpk⟩

theorem findVal_isSome_of_mem {r : Row} {k : String}
    (hk : k ∈ r.map Prod.fst) : ∃ v, findVal r k = some v := by
  induction r with
  | nil => simp at hk
  | cons p r ih =>
    rw [findVal_cons]
    by_cases h : p.1 = k
    · exact ⟨p.2, by simp [h]⟩
    · simp only [List.map_cons, List.mem_cons] at hk
      rcases hk with hk | hk
    
      · exact absurd hk.symm h
      · simpa [h] using ih hk

theorem mem_of_findVal_isSome {r : Row} {k v : String}
    (h : findVal r k = some v) : k ∈ r.map Prod.fst := by
  induction r with
  | nil => simp [findVal_nil] at h
  | cons p r ih =>
    rw [findVal_cons] at h
    by_cases hp : p.1 = k
    · simp [hp]
    · simp only [hp, if_false] at h
      simpa using Or.inr (ih h)

/-- The row binds key `k` and every entry for `k` carries value `v`. -/
def bindingOK (r : Row) (k v : String) : Prop :=
  k ∈ r.map Prod.fst ∧ ∀ p ∈ r, p.1 = k → p.2 = v

theorem bindingOK_findVal {r : Row} {k v : String}
    (h : bindingOK r k v) : findVal r k = some v := by
  obtain ⟨hmem, hval⟩ := h
  induction r with
  | nil => simp at hmem
  | cons p r ih =>
    rw [findVal_cons]
    by_cases hp : p.1 = k
    · simp [hp, hval p (List.mem_cons_self p r) hp]
    · simp only [List.map_cons, List.mem_cons] at hmem
      rcases hmem with hmem | hmem
      · exact absurd hmem.symm hp
      · simpa [hp] using ih hmem (fun q hq => hval q (List.mem_cons_of_mem p hq))

theorem keys_setVal_of_any {r : Row} {k : String} (v : String)
    (hany : r.any (fun p => p.1 == k) = true) :
    (setVal r k v).map Prod.fst = r.map Prod.fst := by
  unfold setVal
  rw [if_pos hany, List.map_map]
  refine List.map_congr_left ?_
  intro p _
  by_cases h : p.1 = k
  · simp [h]
  · simp [h]

theorem keys_setVal_of_mem {r : Row} {k : String} (v : String)
    (hk : k ∈ r.map Prod.fst) :
    (setVal r k v).map Prod.fst = r.map Prod.fst :=
  keys_setVal_of_any v ((any_key_iff r k).mpr hk)

theorem keys_setVal_of_not_mem {r : Row} {k : String} (v : String)
    (hk : k ∉ r.map Prod.fst) :
    (setVal r k v).map Prod.fst = r.map Prod.fst ++ [k] := by
  unfold setVal
  rw [if_neg (by rw [any_key_iff]; exact hk)]
  simp

theorem keys_subset_setVal (r : Row) (k v : String) :
    r.map Prod.fst ⊆ (setVal r k v).map Prod.fst := by
  by_cases hk : k ∈ r.map Prod.fst
  · rw [keys_setVal_of_mem v hk]
    exact fun x hx => hx
  · rw [keys_setVal_of_not_mem v hk]
    exact List.subset_append_left _ _

theorem setVal_bindingOK (r : Row) (k v : String) :
    bindingOK (setVal r k v) k v := by
  unfold setVal
  split
  case isTrue hany =>
    obtain ⟨p, hp, hpk⟩ := List.any_eq_true.mp hany
    constructor
    · exact List.mem_map.mpr ⟨(k, v), List.mem_map.mpr ⟨p, hp, by simp [hpk]⟩, rfl⟩
    · intro q hq hqk
      obtain ⟨p2, _, hfq⟩ := List.mem_map.mp hq
      by_cases h2 : p2.1 = k
      · have hqe : q = (k, v) := by rw [← hfq]; simp [h2]
        rw [hqe]
      · have hqe : q = p2 := by rw [← hfq]; simp [h2]
        rw [hqe] at hqk
        exact absurd hqk h2
  case isFalse hany =>
    constructor
    · simp
    · intro q hq hqk
      rcases List.mem_append.mp hq with hq | hq
      · exfalso
        exact hany (List.any_eq_true.mpr ⟨q, hq, by simpa using hqk⟩)
      · simp at hq
        rw [hq]

theorem setVal_bindingOK_ne {r : Row} {k v : String} (k2 w : String)
    (hne : k2 ≠ k) (h : bindingOK r k v) : bindingOK (setVal r k2 w) k v := by
  obtain ⟨hmem, hval⟩ := h
  unfold setVal
  split
  case isTrue hany =>
    constructor
    · have := @keys_setVal_of_any r k2 w hany
      unfold setVal at this
      rw [if_pos hany] at this
      rw [this]
      exact hmem
    · intro q hq hqk
      obtain ⟨p2, hp2, hfq⟩ := List.mem_map.mp hq
      by_cases h2 : p2.1 = k2
      · simp [h2] at hfq
        rw [← hfq] at hqk
        exact absurd hqk hne
      · simp [h2] at hfq
        rw [← hfq]
        exact hval p2 hp2 (by rw [hfq]; exact hqk)
  case isFalse =>
    constructor
    · simp only [List.map_append, List.map_cons]
      exact List.mem_append.mpr (Or.inl hmem)
    · intro q hq hqk
      rcases List.mem_append.mp hq with hq | hq
      · exact hval q hq hqk
      · simp at hq
        rw [hq] at hqk
        exact absurd hqk hne

theorem setVal_eq_self {r : Row} {k v : String}
    (h : bindingOK r k v) : setVal r k v = r := by
  obtain ⟨hmem, hval⟩ := h
  unfold setVal
  rw [if_pos ((any_key_iff r k).mpr hmem)]
  have hid : ∀ p ∈ r, (if p.1 == k then (k, v) else p) = p := by
    intro p hp
    obtain ⟨a, b⟩ := p
    by_cases hpk : a = k
    · have hv := hval (a, b) hp hpk
      simp only at hv
      simp [hpk, hv]
    · simp [hpk]
  rw [List.map_congr_left hid]
  simp

theorem findVal_map_setFun {k k2 : String} (v : String) (r : Row)
    (hne : k ≠ k2) :
    findVal (r.map (fun p => if p.1 == k2 then (k2, v) else p)) k =
      findVal r k := by
  induction r with
  | nil => rfl
  | cons p r ih =>
    by_cases h2 : p.1 = k2
    · have e1 : (if p.1 == k2 then (k2, v) else p) = (k2, v) := by simp [h2]
      have hk2k : ¬((k2, v).1 = k) := by simpa using fun h => hne h.symm
      have hpk : ¬(p.1 = k) := by rw [h2]; exact fun h => hne h.symm
      rw [List.map_cons, e1, findVal_cons, findVal_cons, if_neg hk2k, if_neg hpk]
      exact ih
    · have e1 : (if p.1 == k2 then (k2, v) else p) = p := by simp [h2]
      rw [List.map_cons, e1, findVal_cons, findVal_cons]
      by_cases hk : p.1 = k
      · simp [hk]
      · rw [if_neg hk, if_neg hk]
        exact ih

theorem findVal_append_single {k k2 : String} (v : String) (r : Row)
    (hne : k ≠ k2) : findVal (r ++ [(k2, v)]) k = findVal r k := by
  induction r with
  | nil =>
    simp only [List.nil_append]
    rw [findVal_cons]
    simp [show ¬(k2 = k) from fun h => hne h.symm, findVal_nil]
  | cons p r ih =>
    simp only [List.cons_append]
    rw [findVal_cons, findVal_cons]
    by_cases hk : p.1 = k
    · simp [hk]
    · rw [if_neg hk, if_neg hk]
      exact ih

theorem findVal_setVal_ne {k k2 : String} (r : Row) (v : String)
    (hne : k ≠ k2) : findVal (setVal r k2 v) k = findVal r k := by
  unfold setVal
  split
  · exact findVal_map_setFun v r hne
  · exact findVal_append_single v r hne

theorem keys_subset_applyFields (fs : List (String × Option String)) :
    ∀ r : Row, r.map Prod.fst ⊆ (fs.foldl applyField r).map Prod.fst := by
  induction fs with
  | nil => intro r; exact fun x hx => hx
  | cons kv fs ih =>
    intro r
    rw [List.foldl_cons]
    refine List.Subset.trans ?_ (ih (applyField r kv))
    match kv with
    | (k2, none) => exact fun x hx => hx
    | (k2, some v) => exact keys_subset_setVal r k2 v

theorem keys_applyFields_of_sub (fs : List (String × Option String)) :
    ∀ r : Row, (∀ kv ∈ fs, ∀ v, kv.2 = some v → kv.1 ∈ r.map Prod.fst) →
      (fs.foldl applyField r).map Prod.fst = r.map Prod.fst := by
  induction fs with
  | nil => intro r _; rfl
  | cons kv fs ih =>
    intro r hsub
    rw [List.foldl_cons]
    match kv with
    | (k2, none) =>
      exact ih r (fun kv2 h2 => hsub kv2 (List.mem_cons_of_mem _ h2))
    | (k2, some v) =>
      have hk2 : k2 ∈ r.map Prod.fst :=
        hsub (k2, some v) (List.mem_cons_self _ _) v rfl
      have hkeys : (setVal r k2 v).map Prod.fst = r.map Prod.fst :=
        keys_setVal_of_mem v hk2
      have := ih (setVal r k2 v) (fun kv2 h2 v2 hv2 => by
        rw [hkeys]
        exact hsub kv2 (List.mem_cons_of_mem _ h2) v2 hv2)
      rw [show applyField r (k2, some v) = setVal r k2 v from rfl, this, hkeys]

theorem applyFields_preserve_bindingOK {k v : String}
    (fs : List (String × Option String)) :
    ∀ r : Row, (∀ kv ∈ fs, kv.1 ≠ k) → bindingOK r k v →
      bindingOK (fs.foldl applyField r) k v := by
  induction fs with
  | nil => intro r _ h; exact h
  | cons kv fs ih =>
    intro r hne h
    rw [List.foldl_cons]
    refine ih (applyField r kv) (fun kv2 h2 => hne kv2 (List.mem_cons_of_mem _ h2)) ?_
    match kv with
    | (k2, none) => exact h
    | (k2, some w) =>
      exact setVal_bindingOK_ne k2 w (hne (k2, some w) (List.mem_cons_self _ _)) h

theorem applyFields_bindingOK {k v : String}
    (fs : List (String × Option String)) :
    ∀ r : Row, (fs.map Prod.fst).Nodup → (k, some v) ∈ fs →
      bindingOK (fs.foldl applyField r) k v := by
  induction fs with
  | nil => intro r _ h; simp at h
  | cons kv fs ih =>
    intro r hnd hmem
    have hnd2 : (fs.map Prod.fst).Nodup := (List.nodup_cons.mp (by simpa using hnd)).2
    have hhead : kv.1 ∉ fs.map Prod.fst := (List.nodup_cons.mp (by simpa using hnd)).1
    rw [List.foldl_cons]
    rcases List.mem_cons.mp hmem with heq | hmem2
    · subst heq
      refine applyFields_preserve_bindingOK fs (applyField r (k, some v)) ?_ ?_
      · intro kv2 h2 hk2
        exact hhead (by rw [show (k, some v).1 = k from rfl, ← hk2]; exact List.mem_map_of_mem _ h2)
      · exact setVal_bindingOK r k v
    · exact ih (applyField r kv) hnd2 hmem2

theorem applyFields_eq_self (fs : List (String × Option String)) (r : Row)
    (h : ∀ kv ∈ fs, ∀ v, kv.2 = some v → bindingOK r kv.1 v) :
    fs.foldl applyField r = r := by
  induction fs with
  | nil => rfl
  | cons kv fs ih =>
    rw [List.foldl_cons]
    have htail : ∀ kv2 ∈ fs, ∀ v, kv2.2 = some v → bindingOK r kv2.1 v :=
      fun kv2 h2 => h kv2 (List.mem_cons_of_mem _ h2)
    match kv with
    | (k2, none) => exact ih (fun kv2 h2 => htail kv2 h2)
    | (k2, some v) =>
      have : setVal r k2 v = r :=
        setVal_eq_self (h (k2, some v) (List.mem_cons_self _ _) v rfl)
      rw [show applyField r (k2, some v) = setVal r k2 v from rfl, this]
      exact ih (fun kv2 h2 => htail kv2 h2)

theorem findVal_applyFields_not_supplied {k : String}
    (fs : List (String × Option String)) :
    ∀ r : Row, (∀ kv ∈ fs, ∀ v, kv.2 = some v → kv.1 ≠ k) →
      findVal (fs.foldl applyField r) k = findVal r k := by
  induction fs with
  | nil => intro r _; rfl
  | cons kv fs ih =>
    intro r hne
    rw [List.foldl_cons]
    have htail := fun kv2 h2 => hne kv2 (List.mem_cons_of_mem _ h2)
    match kv with
    | (k2, none) => exact ih r htail
    | (k2, some v) =>
      rw [show applyField r (k2, some v) = setVal r k2 v from rfl]
      rw [ih (setVal r k2 v) htail]
      exact findVal_setVal_ne r v
        (fun h => hne (k2, some v) (List.mem_cons_self _ _) v rfl h.symm)

/-- The ten optional output column names, in source order. -/
def tenNames : List String :=
  ["total_heat_load", "total_power", "hp1_load", "hp1_power",
   "hp2_load", "hp2_power", "pump1_load", "pump1_power",
   "pump2_load", "pump2_power"]

theorem fieldsList_keys (a : WriteArgs) :
    a.fieldsList.map Prod.fst = tenNames := rfl

theorem tenNames_nodup : tenNames.Nodup := by decide

theorem mem_suppliedKeys_iff {a : WriteArgs} {k : String} :
    k ∈ suppliedKeys a ↔ ∃ v, (k, some v) ∈ a.fieldsList := by
  unfold suppliedKeys
  constructor
  · intro hk
    obtain ⟨kv, hkv, hk1⟩ := List.mem_map.mp hk
    obtain ⟨hkv2, hsome⟩ := List.mem_filter.mp hkv
    obtain ⟨v, hv⟩ := Option.isSome_iff_exists.mp hsome
    refine ⟨v, ?_⟩
    have : kv = (k, some v) := by
      obtain ⟨a1, b1⟩ := kv
      simp only at hk1 hv
      rw [hk1, hv]
    rw [← this]
    exact hkv2
  · rintro ⟨v, hv⟩
    exact List.mem_map.mpr ⟨(k, some v), List.mem_filter.mpr ⟨hv, rfl⟩, rfl⟩

theorem suppliedKeys_sub_tenNames (a : WriteArgs) :
    ∀ k ∈ suppliedKeys a, k ∈ tenNames := by
  intro k hk
  obtain ⟨v, hv⟩ := mem_suppliedKeys_iff.mp hk
  rw [← fieldsList_keys a]
  exact List.mem_map_of_mem _ hv

theorem updateRow_keys_eq {a : WriteArgs} {r : Row}
    (hsub : ∀ k ∈ suppliedKeys a, k ∈ r.map Prod.fst) :
    (updateRow r a).map Prod.fst = r.map Prod.fst := by
  refine keys_applyFields_of_sub a.fieldsList r ?_
  intro kv hkv v hv
  refine hsub kv.1 (mem_suppliedKeys_iff.mpr ⟨v, ?_⟩)
  rw [show (kv.1, some v) = kv from ?_]
  · exact hkv
  · obtain ⟨a1, b1⟩ := kv
    simp only at hv ⊢
    rw [hv]

theorem keys_subset_updateRow (a : WriteArgs) (r : Row) :
    r.map Prod.fst ⊆ (updateRow r a).map Prod.fst :=
  keys_subset_applyFields a.fieldsList r

theorem findVal_updateRow_not_ten {a : WriteArgs} {r : Row} {k : String}
    (hk : k ∉ tenNames) : findVal (updateRow r a) k = findVal r k := by
  refine findVal_applyFields_not_supplied a.fieldsList r ?_
  intro kv hkv v _ hke
  refine hk ?_
  rw [← hke, ← fieldsList_keys a]
  exact List.mem_map_of_mem _ hkv

theorem findVal_updateRow_time (a : WriteArgs) (r : Row) :
    findVal (updateRow r a) "time" = findVal r "time" :=
  findVal_updateRow_not_ten (by decide)

theorem updateRow_bindingOK {a : WriteArgs} {r : Row} {k v : String}
    (hkv : (k, some v) ∈ a.fieldsList) : bindingOK (updateRow r a) k v :=
  applyFields_bindingOK a.fieldsList r
    (by rw [fieldsList_keys]; exact tenNames_nodup) hkv

theorem findVal_updateRow_supplied {a : WriteArgs} {r : Row} {k v : String}
    (hkv : (k, some v) ∈ a.fieldsList) : findVal (updateRow r a) k = some v :=
  bindingOK_findVal (updateRow_bindingOK hkv)

theorem findVal_updateRow_not_supplied {a : WriteArgs} {r : Row} {k : String}
    (hk : k ∉ suppliedKeys a) : findVal (updateRow r a) k = findVal r k := by
  refine findVal_applyFields_not_supplied a.fieldsList r ?_
  intro kv hkv v hv hke
  refine hk (mem_suppliedKeys_iff.mpr ⟨v, ?_⟩)
  have hkve : kv = (k, some v) := by
    obtain ⟨a1, b1⟩ := kv
    simp only at hv hke
    rw [hke, hv]
  rw [← hkve]
  exact hkv

theorem updateRow_idem (r : Row) (a : WriteArgs) :
    updateRow (updateRow r a) a = updateRow r a := by
  refine applyFields_eq_self a.fieldsList (updateRow r a) ?_
  intro kv hkv v hv
  refine updateRow_bindingOK ?_
  rw [show (kv.1, some v) = kv from ?_]
  · exact hkv
  · obtain ⟨a1, b1⟩ := kv
    simp only at hv ⊢
    rw [hv]

theorem updateRows_append_match (pre : List Row) :
    ∀ (r : Row) (post : List Row) (ts : String) (a : WriteArgs),
      (∀ r2 ∈ pre, "time" ∈ r2.map Prod.fst) →
      (∀ r2 ∈ pre, findVal r2 "time" ≠ some ts) →
      findVal r "time" = some ts →
      updateRows (pre ++ r :: post) ts a = .ok (pre ++ updateRow r a :: post) := by
  induction pre with
  | nil =>
    intro r post ts a _ _ hr
    simp [updateRows, hr]
  | cons q pre ih =>
    intro r post ts a hkeys hne hr
    obtain ⟨tv, htv⟩ := findVal_isSome_of_mem (hkeys q (List.mem_cons_self q pre))
    have htv_ne : ¬(tv = ts) := fun h =>
      hne q (List.mem_cons_self q pre) (by rw [htv, h])
    have hrec := ih r post ts a
      (fun r2 h2 => hkeys r2 (List.mem_cons_of_mem q h2))
      (fun r2 h2 => hne r2 (List.mem_cons_of_mem q h2)) hr
    simp [updateRows, htv, htv_ne, hrec, Except.map]

theorem updateRows_no_match (rows : List Row) (ts : String) (a : WriteArgs)
    (hkeys : ∀ r ∈ rows, "time" ∈ r.map Prod.fst)
    (hnm : ∀ r ∈ rows, findVal r "time" ≠ some ts) :
    updateRows rows ts a = .error (.timestampNotFound ts) := by
  induction rows with
  | nil => rfl
  | cons q rows ih =>
    obtain ⟨tv, htv⟩ := findVal_isSome_of_mem (hkeys q (List.mem_cons_self q rows))
    have htv_ne : ¬(tv = ts) := fun h =>
      hnm q (List.mem_cons_self q rows) (by rw [htv, h])
    have hrec := ih (fun r2 h2 => hkeys r2 (List.mem_cons_of_mem q h2))
      (fun r2 h2 => hnm r2 (List.mem_cons_of_mem q h2))
    simp [updateRows, htv, htv_ne, hrec, Except.map]

theorem updateRows_error_shape (rows : List Row) (ts : String) (a : WriteArgs)
    (e : Err) (h : updateRows rows ts a = .error e) :
    e = .timestampNotFound ts ∨ ∃ k, e = .csvKeyError k := by
  induction rows with
  | nil =>
    simp only [updateRows] at h
    exact Or.inl (by injection h with h2; rw [← h2])
  | cons q rows ih =>
    cases hf : findVal q "time" with
    | none =>
      simp only [updateRows, hf] at h
      exact Or.inr ⟨"time", by injection h with h2; rw [← h2]⟩
    | some tv =>
      simp only [updateRows, hf] at h
      by_cases htv : tv = ts
      · rw [if_pos htv] at h
        exact absurd h (by simp)
      · rw [if_neg htv] at h
        cases hrec : updateRows rows ts a with
        | error e2 =>
          rw [hrec] at h
          simp only [Except.map] at h
          injection h with h2
          rw [h2] at hrec
          exact ih hrec
        | ok rows2 =>
          rw [hrec] at h
          simp [Except.map] at h

theorem updateRows_error_no_match (rows : List Row) (ts : String)
    (a : WriteArgs) (ts2 : String)
    (hkeys : ∀ r ∈ rows, "time" ∈ r.map Prod.fst)
    (h : updateRows rows ts a = .error (.timestampNotFound ts2)) :
    ∀ r ∈ rows, findVal r "time" ≠ some ts := by
  induction rows with
  | nil => intro r hr; simp at hr
  | cons q rows ih =>
    obtain ⟨tv, htv⟩ := findVal_isSome_of_mem (hkeys q (List.mem_cons_self q rows))
    simp only [updateRows, htv] at h
    by_cases htvts : tv = ts
    · rw [if_pos htvts] at h
      exact absurd h (by simp)
    · rw [if_neg htvts] at h
      intro r hr
      rcases List.mem_cons.mp hr with hr | hr
      · rw [hr, htv]
        exact fun h2 => htvts (by injection h2)
      · cases hrec : updateRows rows ts a with
        | error e2 =>
          rw [hrec] at h
          simp only [Except.map] at h
          injection h with h2
          rw [h2] at hrec
          exact ih (fun r2 h2 => hkeys r2 (List.mem_cons_of_mem q h2)) hrec r hr
        | ok rows2 =>
          rw [hrec] at h
          simp [Except.map] at h

theorem updateRows_ok_match (rows : List Row) (ts : String) (a : WriteArgs)
    (rows2 : List Row) (h : updateRows rows ts a = .ok rows2) :
    ∃ r ∈ rows, findVal r "time" = some ts := by
  induction rows generalizing rows2 with
  | nil => simp [updateRows] at h
  | cons q rows ih =>
    cases hf : findVal q "time" with
    | none => simp [updateRows, hf] at h
    | some tv =>
      simp only [updateRows, hf] at h
      by_cases htv : tv = ts
      · exact ⟨q, List.mem_cons_self q rows, by rw [hf, htv]⟩
      · rw [if_neg htv] at h
        cases hrec : updateRows rows ts a with
        | error e2 => rw [hrec] at h; simp [Except.map] at h
        | ok rs2 =>
          obtain ⟨r, hr, hfr⟩ := ih rs2 hrec
          exact ⟨r, List.mem_cons_of_mem q hr, hfr⟩

theorem updateRows_ok_rowKeys (rows : List Row) (ts : String) (a : WriteArgs)
    (rows2 : List Row) (h : updateRows rows ts a = .ok rows2) :
    rows2.filterMap (fun r => findVal r "time") =
      rows.filterMap (fun r => findVal r "time") := by
  induction rows generalizing rows2 with
  | nil => simp [updateRows] at h
  | cons q rows ih =>
    cases hf : findVal q "time" with
    | none => simp [updateRows, hf] at h
    | some tv =>
      simp only [updateRows, hf] at h
      by_cases htv : tv = ts
      · rw [if_pos htv] at h
        have h2 : rows2 = updateRow q a :: rows := by
          injection h with h3
          rw [← h3]
        rw [h2]
        simp [List.filterMap_cons, findVal_updateRow_time, hf]
      · rw [if_neg htv] at h
        cases hrec : updateRows rows ts a with
        | error e2 => rw [hrec] at h; simp [Except.map] at h
        | ok rs2 =>
          rw [hrec] at h
          simp only [Except.map] at h
          have h2 : rows2 = q :: rs2 := by
            injection h with h3
            rw [← h3]
          rw [h2]
          simp [List.filterMap_cons, hf, ih rs2 hrec]

theorem updateRows_ok_forall (rows : List Row) (ts : String) (a : WriteArgs)
    (rows2 : List Row) (h : updateRows rows ts a = .ok rows2) :
    ∀ r2 ∈ rows2, r2 ∈ rows ∨ ∃ r ∈ rows, r2 = updateRow r a := by
  induction rows generalizing rows2 with
  | nil => simp [updateRows] at h
  | cons q rows ih =>
    cases hf : findVal q "time" with
    | none => simp [updateRows, hf] at h
    | some tv =>
      simp only [updateRows, hf] at h
      by_cases htv : tv = ts
      · rw [if_pos htv] at h
        have h2 : rows2 = updateRow q a :: rows := by
          injection h with h3
          rw [← h3]
        intro r2 hr2
        rw [h2] at hr2
        rcases List.mem_cons.mp hr2 with hr2 | hr2
        · exact Or.inr ⟨q, List.mem_cons_self q rows, hr2⟩
        · exact Or.inl (List.mem_cons_of_mem q hr2)
      · rw [if_neg htv] at h
        cases hrec : updateRows rows ts a with
        | error e2 => rw [hrec] at h; simp [Except.map] at h
        | ok rs2 =>
          rw [hrec] at h
          simp only [Except.map] at h
          have h2 : rows2 = q :: rs2 := by
            injection h with h3
            rw [← h3]
          intro r2 hr2
          rw [h2] at hr2
          rcases List.mem_cons.mp hr2 with hr2 | hr2
          · exact Or.inl (by rw [hr2]; exact List.mem_cons_self q rows)
          · rcases ih rs2 hrec r2 hr2 with hin | ⟨r, hr, hre⟩
            · exact Or.inl (List.mem_cons_of_mem q hin)
            · exact Or.inr ⟨r, List.mem_cons_of_mem q hr, hre⟩

theorem getValD_eq {r : Row} {k v : String} (d : String)
    (h : findVal r k = some v) : getValD r k d = v := by
  simp [getValD, h]

theorem projRow_keys (fns : List String) (r : Row) :
    (projRow fns r).map Prod.fst = fns := by
  induction fns with
  | nil => rfl
  | cons f fns ih =>
    unfold projRow at ih ⊢
    rw [List.map_cons, List.map_cons, ih]

theorem projRow_eq_self (r : Row) :
    ∀ fns : List String, r.map Prod.fst = fns → fns.Nodup →
      projRow fns r = r := by
  induction r with
  | nil =>
    intro fns hmap _
    rw [← hmap]
    rfl
  | cons p r ih =>
    intro fns hmap hnd
    obtain ⟨a, b⟩ := p
    rw [← hmap] at hnd ⊢
    simp only [List.map_cons] at hnd ⊢
    have hnd2 := List.nodup_cons.mp hnd
    unfold projRow
    rw [List.map_cons]
    have hhead : getValD ((a, b) :: r) a "" = b := by
      refine getValD_eq "" ?_
      rw [findVal_cons]
      simp
    rw [hhead]
    have htail : ∀ f ∈ r.map Prod.fst,
        (f, getValD ((a, b) :: r) f "") = (f, getValD r f "") := by
      intro f hf
      have hfa : ¬((a, b).1 = f) := by
        simp only
        exact fun h => hnd2.1 (h ▸ hf)
      congr 1
      unfold getValD
      rw [findVal_cons, if_neg hfa]
    rw [List.map_congr_left htail]
    have := ih (r.map Prod.fst) rfl hnd2.2
    unfold projRow at this
    rw [this]

theorem extraKeys_nil_of_sub {fns : List String} {r : Row}
    (h : ∀ k ∈ r.map Prod.fst, k ∈ fns) : extraKeys fns r = [] := by
  unfold extraKeys
  rw [List.filter_eq_nil_iff]
  intro k hk
  simp [h k hk]

theorem mem_extraKeys_iff {fns : List String} {r : Row} {k : String} :
    k ∈ extraKeys fns r ↔ k ∈ r.map Prod.fst ∧ k ∉ fns := by
  unfold extraKeys
  rw [List.mem_filter]
  simp

theorem persist_ok_of_keys {fns : List String} (hnd : fns.Nodup) :
    ∀ rows : List Row, (∀ r ∈ rows, r.map Prod.fst = fns) →
      persist fns rows = (.ok (), rows) := by
  intro rows
  induction rows with
  | nil => intro _; rfl
  | cons r rows ih =>
    intro hkeys
    have hr := hkeys r (List.mem_cons_self r rows)
    have he : extraKeys fns r = [] :=
      extraKeys_nil_of_sub (fun k hk => hr ▸ hk)
    have hrec := ih (fun r2 h2 => hkeys r2 (List.mem_cons_of_mem r h2))
    simp only [persist, he, if_pos]
    rw [hrec, projRow_eq_self r fns hr hnd]

theorem persist_error_shape (fns : List String) :
    ∀ (rows : List Row) (e : Err), (persist fns rows).1 = .error e →
      ∃ ks, e = .csvExtraFields ks := by
  intro rows
  induction rows with
  | nil => intro e h; simp [persist] at h
  | cons r rows ih =>
    intro e h
    by_cases he : extraKeys fns r = []
    · simp only [persist, he, if_pos] at h
      exact ih e h
    · simp only [persist, he, if_neg, if_false] at h
      exact ⟨extraKeys fns r, by injection h with h2; rw [← h2]⟩

theorem persist_keys_out (fns : List String) :
    ∀ rows : List Row, ∀ r2 ∈ (persist fns rows).2,
      r2.map Prod.fst = fns := by
  intro rows
  induction rows with
  | nil => intro r2 h2; simp [persist] at h2
  | cons r rows ih =>
    intro r2 h2
    by_cases he : extraKeys fns r = []
    · simp only [persist, he, if_pos] at h2
      rcases List.mem_cons.mp h2 with h2 | h2
      · rw [h2]
        exact projRow_keys fns r
      · exact ih r2 h2
    · simp only [persist, he, if_neg, if_false] at h2
      simp at h2

theorem findVal_projRow_of_mem {fns : List String} {r : Row} {k : String}
    (hkf : k ∈ fns) (hkr : k ∈ r.map Prod.fst) :
    findVal (projRow fns r) k = findVal r k := by
  obtain ⟨v, hv⟩ := findVal_isSome_of_mem hkr
  rw [hv]
  induction fns with
  | nil => simp at hkf
  | cons f fns ih =>
    unfold projRow
    rw [List.map_cons, findVal_cons]
    by_cases hfk : f = k
    · simp only [hfk, if_pos]
      rw [getValD_eq "" hv]
    · rw [if_neg (by simpa using hfk)]
      rcases List.mem_cons.mp hkf with hkf2 | hkf2
      · exact absurd hkf2.symm hfk
      · exact ih hkf2

theorem persist_rowKeys_sub {fns : List String} (htime : "time" ∈ fns) :
    ∀ rows : List Row, (∀ r ∈ rows, "time" ∈ r.map Prod.fst) →
      ∀ x ∈ ((persist fns rows).2).filterMap (fun r => findVal r "time"),
        x ∈ rows.filterMap (fun r => findVal r "time") := by
  intro rows
  induction rows with
  | nil => intro _ x hx; simp [persist] at hx
  | cons r rows ih =>
    intro hkeys x hx
    have hr := hkeys r (List.mem_cons_self r rows)
    by_cases he : extraKeys fns r = []
    · simp only [persist, he, if_pos] at hx
      rw [List.filterMap_cons] at hx
      have hproj : findVal (projRow fns r) "time" = findVal r "time" :=
        findVal_projRow_of_mem htime hr
      rw [List.filterMap_cons]
      cases hf : findVal r "time" with
      | none =>
        rw [hproj, hf] at hx
        exact ih (fun r2 h2 => hkeys r2 (List.mem_cons_of_mem r h2)) x hx
      | some tv =>
        rw [hproj, hf] at hx
        rcases List.mem_cons.mp hx with hx | hx
        · rw [hx]
          exact List.mem_cons_self tv _
        · exact List.mem_cons_of_mem tv
            (ih (fun r2 h2 => hkeys r2 (List.mem_cons_of_mem r h2)) x hx)
    · simp only [persist, he, if_neg, if_false] at hx
      simp at hx

theorem exists_first_split {rows : List Row} {ts : String}
    (h : ∃ r ∈ rows, findVal r "time" = some ts) :
    ∃ pre r post, rows = pre ++ r :: post ∧
      (∀ r2 ∈ pre, findVal r2 "time" ≠ some ts) ∧
      findVal r "time" = some ts := by
  induction rows with
  | nil => simp at h
  | cons q rows ih =>
    by_cases hq : findVal q "time" = some ts
    · exact ⟨[], q, rows, rfl, by simp, hq⟩
    · have h2 : ∃ r ∈ rows, findVal r "time" = some ts := by
        obtain ⟨r, hr, hfr⟩ := h
        rcases List.mem_cons.mp hr with hr | hr
        · exact absurd (hr ▸ hfr) hq
        · exact ⟨r, hr, hfr⟩
      obtain ⟨pre, r, post, he, hpre, hr⟩ := ih h2
      refine ⟨q :: pre, r, post, by rw [he, List.cons_append], ?_, hr⟩
      intro r2 h2
      rcases List.mem_cons.mp h2 with h2 | h2
      · rw [h2]
        exact hq
      · exact hpre r2 h2

theorem rows_keys_of_WF {tbl : Table} (hwf : tbl.WF) :
    ∀ r ∈ tbl.rows, "time" ∈ r.map Prod.fst := by
  intro r hr
  rw [hwf.2.2.2.2 r hr]
  exact hwf.2.1

theorem write_success_eq {tbl : Table} {ts : String} {a : WriteArgs}
    {pre post : List Row} {r : Row}
    (hwf : tbl.WF)
    (hsub : ∀ k ∈ suppliedKeys a, k ∈ tbl.fieldnames)
    (hsplit : tbl.rows = pre ++ r :: post)
    (hpre : ∀ r2 ∈ pre, findVal r2 "time" ≠ some ts)
    (hr : findVal r "time" = some ts) :
    write_timeseries tbl ts a =
      (.ok (), ⟨tbl.fieldnames, pre ++ updateRow r a :: post⟩) := by
  obtain ⟨hnd, htime, ht2, hf2, hkeys⟩ := hwf
  have hkeys_pre : ∀ r2 ∈ pre, "time" ∈ r2.map Prod.fst := by
    intro r2 h2
    rw [hkeys r2 (by rw [hsplit]; exact List.mem_append_left _ h2)]
    exact htime
  have hup := updateRows_append_match pre r post ts a hkeys_pre hpre hr
  have hrkeys : r.map Prod.fst = tbl.fieldnames :=
    hkeys r (by rw [hsplit]; exact List.mem_append_right _ (List.mem_cons_self r post))
  have hrows2 : ∀ r2 ∈ pre ++ updateRow r a :: post,
      r2.map Prod.fst = tbl.fieldnames := by
    intro r2 h2
    rcases List.mem_append.mp h2 with h2 | h2
    · exact hkeys r2 (by rw [hsplit]; exact List.mem_append_left _ h2)
    · rcases List.mem_cons.mp h2 with h2 | h2
      · rw [h2, updateRow_keys_eq (by rw [hrkeys]; exact hsub), hrkeys]
      · exact hkeys r2
          (by rw [hsplit]; exact List.mem_append_right _ (List.mem_cons_of_mem r h2))
  have hper := persist_ok_of_keys hnd (pre ++ updateRow r a :: post) hrows2
  unfold write_timeseries
  rw [hsplit, hup]
  simp only [hper]

theorem write_no_match {tbl : Table} {ts : String} (a : WriteArgs)
    (hwf : tbl.WF)
    (hnm : ∀ r ∈ tbl.rows, findVal r "time" ≠ some ts) :
    write_timeseries tbl ts a = (.error (.timestampNotFound ts), tbl) := by
  have hup := updateRows_no_match tbl.rows ts a (rows_keys_of_WF hwf) hnm
  unfold write_timeseries
  rw [hup]

theorem write_scan_error_unchanged {tbl : Table} {ts : String}
    {a : WriteArgs} {e : Err} (h : updateRows tbl.rows ts a = .error e) :
    write_timeseries tbl ts a = (.error e, tbl) := by
  unfold write_timeseries
  rw [h]

theorem write_error_shape {tbl : Table} {ts : String} {a : WriteArgs}
    {e : Err} (h : (write_timeseries tbl ts a).1 = .error e) :
    e = .timestampNotFound ts ∨ (∃ k, e = .csvKeyError k) ∨
      ∃ ks, e = .csvExtraFields ks := by
  unfold write_timeseries at h
  cases hu : updateRows tbl.rows ts a with
  | error e2 =>
    rw [hu] at h
    simp only at h
    injection h with h2
    rw [h2] at hu
    rcases updateRows_error_shape tbl.rows ts a e hu with h3 | h3
    · exact Or.inl h3
    · exact Or.inr (Or.inl h3)
  | ok rows2 =>
    rw [hu] at h
    simp only at h
    exact Or.inr (Or.inr (persist_error_shape tbl.fieldnames rows2 e h))

theorem write_preserves_WF {tbl : Table} (ts : String) (a : WriteArgs)
    (hwf : tbl.WF) : ((write_timeseries tbl ts a).2).WF := by
  unfold write_timeseries
  cases hu : updateRows tbl.rows ts a with
  | error e => exact hwf
  | ok rows2 =>
    obtain ⟨hnd, htime, ht2, hf2, _⟩ := hwf
    exact ⟨hnd, htime, ht2, hf2, persist_keys_out tbl.fieldnames rows2⟩

theorem write_rowKeys_sub {tbl : Table} (ts : String) (a : WriteArgs)
    (hwf : tbl.WF) :
    ∀ x ∈ rowKeys (write_timeseries tbl ts a).2, x ∈ rowKeys tbl := by
  unfold write_timeseries rowKeys
  cases hu : updateRows tbl.rows ts a with
  | error e => exact fun x hx => hx
  | ok rows2 =>
    intro x hx
    simp only at hx
    have hkeys2 : ∀ r2 ∈ rows2, "time" ∈ r2.map Prod.fst := by
      intro r2 h2
      rcases updateRows_ok_forall tbl.rows ts a rows2 hu r2 h2 with h3 | ⟨r, hr, hre⟩
      · exact rows_keys_of_WF hwf r2 h3
      · rw [hre]
        exact keys_subset_updateRow a r (rows_keys_of_WF hwf r hr)
    have hsub := persist_rowKeys_sub hwf.2.1 rows2 hkeys2 x hx
    rw [updateRows_ok_rowKeys tbl.rows ts a rows2 hu] at hsub
    exact hsub

theorem readRows_append_match (pre : List Row) :
    ∀ (r : Row) (post : List Row) (ts t2v f2v : String),
      (∀ r2 ∈ pre, "time" ∈ r2.map Prod.fst) →
      (∀ r2 ∈ pre, findVal r2 "time" ≠ some ts) →
      findVal r "time" = some ts →
      findVal r "t2" = some t2v → findVal r "F2" = some f2v →
      readRows (pre ++ r :: post) ts = .ok (t2v, f2v) := by
  induction pre with
  | nil =>
    intro r post ts t2v f2v _ _ hr ht2 hf2
    simp [readRows, hr, ht2, hf2]
  | cons q pre ih =>
    intro r post ts t2v f2v hkeys hne hr ht2 hf2
    obtain ⟨tv, htv⟩ := findVal_isSome_of_mem (hkeys q (List.mem_cons_self q pre))
    have htv_ne : ¬(tv = ts) := fun h =>
      hne q (List.mem_cons_self q pre) (by rw [htv, h])
    have hrec := ih r post ts t2v f2v
      (fun r2 h2 => hkeys r2 (List.mem_cons_of_mem q h2))
      (fun r2 h2 => hne r2 (List.mem_cons_of_mem q h2)) hr ht2 hf2
    simp [readRows, htv, htv_ne, hrec]

theorem readRows_no_match (rows : List Row) (ts : String)
    (hkeys : ∀ r ∈ rows, "time" ∈ r.map Prod.fst)
    (hnm : ∀ r ∈ rows, findVal r "time" ≠ some ts) :
    readRows rows ts = .error (.timestampNotFound ts) := by
  induction rows with
  | nil => rfl
  | cons q rows ih =>
    obtain ⟨tv, htv⟩ := findVal_isSome_of_mem (hkeys q (List.mem_cons_self q rows))
    have htv_ne : ¬(tv = ts) := fun h =>
      hnm q (List.mem_cons_self q rows) (by rw [htv, h])
    have hrec := ih (fun r2 h2 => hkeys r2 (List.mem_cons_of_mem q h2))
      (fun r2 h2 => hnm r2 (List.mem_cons_of_mem q h2))
    simp [readRows, htv, htv_ne, hrec]

/-- C2: for every time-series table and timestamp string, the pair
reader returns exactly the `(t2, F2)` values stored in the first row
(in file order) whose `time` key matches the timestamp, and fails with
the not-found error — a `NotFoundError` — when no row matches. -/
theorem read_timeseries_spec (tbl : Table) (ts : String)
    (pre post : List Row) (r : Row) (hwf : tbl.WF) :
    (tbl.rows = pre ++ r :: post →
      (∀ r2 ∈ pre, findVal r2 "time" ≠ some ts) →
      findVal r "time" = some ts →
      ∃ t2v f2v, findVal r "t2" = some t2v ∧ findVal r "F2" = some f2v ∧
        read_timeseries tbl ts = .ok (t2v, f2v)) ∧
    ((∀ r2 ∈ tbl.rows, findVal r2 "time" ≠ some ts) →
      read_timeseries tbl ts = .error (.timestampNotFound ts) ∧
      (Err.timestampNotFound ts).isNotFoundError = true) := by
  constructor
  · intro hsplit hpre hr
    have hrmem : r ∈ tbl.rows := by
      rw [hsplit]
      exact List.mem_append_right _ (List.mem_cons_self r post)
    have hrkeys : r.map Prod.fst = tbl.fieldnames := hwf.2.2.2.2 r hrmem
    obtain ⟨t2v, ht2v⟩ :=
      @findVal_isSome_of_mem r "t2" (by rw [hrkeys]; exact hwf.2.2.1)
    obtain ⟨f2v, hf2v⟩ :=
      @findVal_isSome_of_mem r "F2" (by rw [hrkeys]; exact hwf.2.2.2.1)
    refine ⟨t2v, f2v, ht2v, hf2v, ?_⟩
    unfold read_timeseries
    rw [hsplit]
    refine readRows_append_match pre r post ts t2v f2v ?_ hpre hr ht2v hf2v
    intro r2 h2
    rw [hwf.2.2.2.2 r2 (by rw [hsplit]; exact List.mem_append_left _ h2)]
    exact hwf.2.1
  · intro hnm
    refine ⟨?_, rfl⟩
    unfold read_timeseries
    exact readRows_no_match tbl.rows ts (rows_keys_of_WF hwf) hnm

/-- C2 witness: on the sample table, the pair reader returns the
stored pair for a present timestamp and the not-found error for an
absent one. -/
theorem read_timeseries_spec_witness :
    read_timeseries sampleTable "202512071900" = .ok ("45.0", "120.0") ∧
    read_timeseries sampleTable "999912312359" =
      .error (.timestampNotFound "999912312359") := by
  constructor
  · obtain ⟨t2v, f2v, ht, hf, hok⟩ :=
      (read_timeseries_spec sampleTable "202512071900" [] [rowB] rowA
        (by decide)).1 rfl (by simp) rfl
    have ht2 : t2v = "45.0" := by
      have : findVal rowA "t2" = some "45.0" := rfl
      rw [this] at ht
      injection ht with h2
      rw [h2]
    have hf2 : f2v = "120.0" := by
      have : findVal rowA "F2" = some "120.0" := rfl
      rw [this] at hf
      injection hf with h2
      rw [h2]
    rw [ht2, hf2] at hok
    exact hok
  · exact ((read_timeseries_spec sampleTable "999912312359" [] [] []
      (by decide)).2 (by decide)).1

/-- C8: each single-field reader performs the same scan as the pair
reader and returns exactly one component of its result — the
temperature reader the first, the flow reader the second — and each
fails with exactly the errors of the pair reader. -/
theorem read_single_field_refinement (tbl : Table) (ts : String) :
    read_timeseries_t2 tbl ts = (read_timeseries tbl ts).map Prod.fst ∧
    read_timeseries_f2 tbl ts = (read_timeseries tbl ts).map Prod.snd ∧
    (∀ e, read_timeseries_t2 tbl ts = .error e ↔
      read_timeseries tbl ts = .error e) ∧
    (∀ e, read_timeseries_f2 tbl ts = .error e ↔
      read_timeseries tbl ts = .error e) := by
  cases h : read_timeseries tbl ts with
  | error e2 =>
    refine ⟨?_, ?_, ?_, ?_⟩ <;>
      simp [read_timeseries_t2, read_timeseries_f2, h, Except.map,
        Bind.bind, Except.bind]
  | ok p =>
    refine ⟨?_, ?_, ?_, ?_⟩ <;>
      simp [read_timeseries_t2, read_timeseries_f2, h, Except.map,
        Bind.bind, Except.bind, pure, Except.pure]

/-- C10: whenever the write operation fails with the not-found error,
the persisted file is byte-for-byte unchanged — the `ValueError` is
raised before the file is reopened for writing. -/
theorem write_notfound_atomic (tbl : Table) (ts ts2 : String)
    (a : WriteArgs)
    (h : (write_timeseries tbl ts a).1 = .error (.timestampNotFound ts2)) :
    (write_timeseries tbl ts a).2 = tbl := by
  unfold write_timeseries at h ⊢
  cases hu : updateRows tbl.rows ts a with
  | error e => rfl
  | ok rows2 =>
    rw [hu] at h
    have h2 : (persist tbl.fieldnames rows2).1 =
        .error (.timestampNotFound ts2) := h
    obtain ⟨ks, hks⟩ := persist_error_shape tbl.fieldnames rows2 _ h2
    exact absurd hks (by simp)

/-- C10 witness: a write at an absent timestamp fails with the
not-found error and leaves the sample table untouched. -/
theorem write_notfound_atomic_witness :
    (write_timeseries sampleTable "999912312359" hp1OnlyArgs).1 =
      .error (.timestampNotFound "999912312359") ∧
    (write_timeseries sampleTable "999912312359" hp1OnlyArgs).2 =
      sampleTable :=
  ⟨rfl, write_notfound_atomic sampleTable "999912312359" "999912312359"
    hp1OnlyArgs rfl⟩

/-- C3: the write operation fails with the not-found error exactly
when no row's `time` key matches the timestamp, and the timestamp scan
is the only source of a `NotFoundError`-kind failure in the write
path (every other failure is of the `ParseError/IOError` kind). -/
theorem write_notfound_spec (tbl : Table) (ts : String) (a : WriteArgs)
    (hwf : tbl.WF) :
    ((write_timeseries tbl ts a).1 = .error (.timestampNotFound ts) ↔
      ∀ r ∈ tbl.rows, findVal r "time" ≠ some ts) ∧
    (∀ e, (write_timeseries tbl ts a).1 = .error e →
      e.isNotFoundError = true → e = .timestampNotFound ts) := by
  constructor
  · constructor
    · intro h
      by_contra hc
      push_neg at hc
      obtain ⟨pre, r, post, hsplit, hpre, hr⟩ := exists_first_split hc
      have hkeys_pre : ∀ r2 ∈ pre, "time" ∈ r2.map Prod.fst := by
        intro r2 h2
        exact rows_keys_of_WF hwf r2 (by rw [hsplit]; exact List.mem_append_left _ h2)
      have hup := updateRows_append_match pre r post ts a hkeys_pre hpre hr
      have h3 : (write_timeseries tbl ts a).1 =
          (persist tbl.fieldnames (pre ++ updateRow r a :: post)).1 := by
        unfold write_timeseries
        rw [hsplit, hup]
      rw [h3] at h
      obtain ⟨ks, hks⟩ :=
        persist_error_shape tbl.fieldnames (pre ++ updateRow r a :: post) _ h
      exact absurd hks (by simp)
    · intro hnm
      rw [write_no_match a hwf hnm]
  · intro e he hnf
    rcases write_error_shape he with h1 | ⟨k, h2⟩ | ⟨ks, h3⟩
    · exact h1
    · rw [h2] at hnf
      simp [Err.isNotFoundError] at hnf
    · rw [h3] at hnf
      simp [Err.isNotFoundError] at hnf

/-- C3 witness: on the sample table a write at an absent timestamp
fails with the not-found error. -/
theorem write_notfound_spec_witness :
    (write_timeseries sampleTable "999912312359" noneArgs).1 =
      .error (.timestampNotFound "999912312359") :=
  (write_notfound_spec sampleTable "999912312359" noneArgs
    (by decide)).1.mpr (by decide)

theorem persist_error_at (fns : List String) (pre : List Row) :
    ∀ (bad : Row) (rest : List Row),
      (∀ r2 ∈ pre, extraKeys fns r2 = []) → extraKeys fns bad ≠ [] →
      (persist fns (pre ++ bad :: rest)).1 =
        .error (.csvExtraFields (extraKeys fns bad)) := by
  induction pre with
  | nil =>
    intro bad rest _ hbad
    simp [persist, hbad]
  | cons q pre ih =>
    intro bad rest hkeys hbad
    have hq := hkeys q (List.mem_cons_self q pre)
    simp only [List.cons_append, persist, hq, if_pos]
    exact ih bad rest (fun r2 h2 => hkeys r2 (List.mem_cons_of_mem q h2)) hbad

/-- C7: when the write operation is given a value for an output field
whose column is absent from the CSV header, it fails — the
`csv.DictWriter` raises on the updated row — with an error of the
`ParseError/IOError` kind that carries the offending field and is
returned to the caller unhandled. -/
theorem write_schema_mismatch (tbl : Table) (ts : String) (a : WriteArgs)
    (k v : String) (pre post : List Row) (r : Row)
    (hwf : tbl.WF)
    (hsplit : tbl.rows = pre ++ r :: post)
    (hpre : ∀ r2 ∈ pre, findVal r2 "time" ≠ some ts)
    (hr : findVal r "time" = some ts)
    (hk : (k, some v) ∈ a.fieldsList)
    (habsent : k ∉ tbl.fieldnames) :
    ∃ ks, (write_timeseries tbl ts a).1 = .error (.csvExtraFields ks) ∧
      k ∈ ks ∧ (Err.csvExtraFields ks).isParseOrIoError = true := by
  have hkeys_pre : ∀ r2 ∈ pre, "time" ∈ r2.map Prod.fst := by
    intro r2 h2
    exact rows_keys_of_WF hwf r2 (by rw [hsplit]; exact List.mem_append_left _ h2)
  have hup := updateRows_append_match pre r post ts a hkeys_pre hpre hr
  have hbadmem : k ∈ extraKeys tbl.fieldnames (updateRow r a) :=
    mem_extraKeys_iff.mpr ⟨(updateRow_bindingOK hk).1, habsent⟩
  have hbad : extraKeys tbl.fieldnames (updateRow r a) ≠ [] :=
    List.ne_nil_of_mem hbadmem
  have hpre_extra : ∀ r2 ∈ pre, extraKeys tbl.fieldnames r2 = [] := by
    intro r2 h2
    refine extraKeys_nil_of_sub ?_
    intro k2 hk2
    rw [hwf.2.2.2.2 r2 (by rw [hsplit]; exact List.mem_append_left _ h2)] at hk2
    exact hk2
  have hper := persist_error_at tbl.fieldnames pre (updateRow r a) post
    hpre_extra hbad
  refine ⟨extraKeys tbl.fieldnames (updateRow r a), ?_, hbadmem, rfl⟩
  have h3 : (write_timeseries tbl ts a).1 =
      (persist tbl.fieldnames (pre ++ updateRow r a :: post)).1 := by
    unfold write_timeseries
    rw [hsplit, hup]
  rw [h3]
  exact hper

/-- C7 witness: supplying `total_heat_load` against the sample table,
whose header has no such column, fails with the schema-mismatch
error, a `ParseError/IOError`. -/
theorem write_schema_mismatch_witness :
    ∃ ks, (write_timeseries sampleTable "202512071900" thlOnlyArgs).1 =
      .error (.csvExtraFields ks) ∧ "total_heat_load" ∈ ks ∧
      (Err.csvExtraFields ks).isParseOrIoError = true :=
  write_schema_mismatch sampleTable "202512071900" thlOnlyArgs
    "total_heat_load" "9.0" [] [rowB] rowA (by decide) rfl (by simp) rfl
    (by decide) (by decide)

/-- C1: writing any subset of the ten output fields at an existing
timestamp succeeds and persists a table with the same column order in
which only the first matching row changed; in that row every supplied
field now holds the supplied value and every other field is untouched,
so reading the table back yields the original table except for the
written fields. -/
theorem write_roundtrip_frame (tbl : Table) (ts : String) (a : WriteArgs)
    (pre post : List Row) (r : Row)
    (hwf : tbl.WF)
    (hsub : ∀ k ∈ suppliedKeys a, k ∈ tbl.fieldnames)
    (hsplit : tbl.rows = pre ++ r :: post)
    (hpre : ∀ r2 ∈ pre, findVal r2 "time" ≠ some ts)
    (hr : findVal r "time" = some ts) :
    write_timeseries tbl ts a =
      (Except.ok (), ⟨tbl.fieldnames, pre ++ updateRow r a :: post⟩) ∧
    (∀ k v, (k, some v) ∈ a.fieldsList →
      findVal (updateRow r a) k = some v) ∧
    (∀ k, k ∉ suppliedKeys a →
      findVal (updateRow r a) k = findVal r k) :=
  ⟨write_success_eq hwf hsub hsplit hpre hr,
   fun _ _ hkv => findVal_updateRow_supplied hkv,
   fun _ hk => findVal_updateRow_not_supplied hk⟩

/-- C1 witness: writing `hp1_load=80.0` at the sample table's first
timestamp updates only that cell of that row and leaves the header,
the other row, and the row's other cells unchanged. -/
theorem write_roundtrip_frame_witness :
    write_timeseries sampleTable "202512071900" hp1OnlyArgs =
      (Except.ok (), ⟨sampleFns, [updateRow rowA hp1OnlyArgs, rowB]⟩) ∧
    findVal (updateRow rowA hp1OnlyArgs) "hp1_load" = some "80.0" ∧
    findVal (updateRow rowA hp1OnlyArgs) "t2" = findVal rowA "t2" :=
  ⟨(write_roundtrip_frame sampleTable "202512071900" hp1OnlyArgs
      [] [rowB] rowA (by decide) (by decide) rfl (by simp) rfl).1,
   (write_roundtrip_frame sampleTable "202512071900" hp1OnlyArgs
      [] [rowB] rowA (by decide) (by decide) rfl (by simp) rfl).2.1
     "hp1_load" "80.0" (by decide),
   (write_roundtrip_frame sampleTable "202512071900" hp1OnlyArgs
      [] [rowB] rowA (by decide) (by decide) rfl (by simp) rfl).2.2
     "t2" (by decide)⟩

/-- C5: writing the same field values twice at an existing timestamp
produces exactly the same persisted file as writing them once. -/
theorem write_idempotent (tbl : Table) (ts : String) (a : WriteArgs)
    (hwf : tbl.WF)
    (hsub : ∀ k ∈ suppliedKeys a, k ∈ tbl.fieldnames)
    (hex : ∃ r ∈ tbl.rows, findVal r "time" = some ts) :
    (write_timeseries (write_timeseries tbl ts a).2 ts a).2 =
      (write_timeseries tbl ts a).2 := by
  obtain ⟨pre, r, post, hsplit, hpre, hr⟩ := exists_first_split hex
  have h1 := write_success_eq hwf hsub hsplit hpre hr
  have hrkeys : r.map Prod.fst = tbl.fieldnames :=
    hwf.2.2.2.2 r (by rw [hsplit]; exact List.mem_append_right _ (List.mem_cons_self r post))
  have hwf2 : (Table.mk tbl.fieldnames (pre ++ updateRow r a :: post)).WF := by
    obtain ⟨hnd, htime, ht2, hf2, hkeys⟩ := hwf
    refine ⟨hnd, htime, ht2, hf2, ?_⟩
    intro r2 h2
    rcases List.mem_append.mp h2 with h2 | h2
    · exact hkeys r2 (by rw [hsplit]; exact List.mem_append_left _ h2)
    · rcases List.mem_cons.mp h2 with h2 | h2
      · rw [h2, updateRow_keys_eq (by rw [hrkeys]; exact hsub), hrkeys]
      · exact hkeys r2
          (by rw [hsplit]; exact List.mem_append_right _ (List.mem_cons_of_mem r h2))
  have hr2 : findVal (updateRow r a) "time" = some ts := by
    rw [findVal_updateRow_time]
    exact hr
  have h2 := @write_success_eq ⟨tbl.fieldnames, pre ++ updateRow r a :: post⟩
    ts a pre post (updateRow r a) hwf2 hsub rfl hpre hr2
  rw [h1, h2, updateRow_idem]

/-- C5 witness: writing `hp1_load=80.0` twice at the sample table's
first timestamp leaves the same file as writing it once. -/
theorem write_idempotent_witness :
    sampleTable.WF ∧
    (write_timeseries (write_timeseries sampleTable "202512071900"
        hp1OnlyArgs).2 "202512071900" hp1OnlyArgs).2 =
      (write_timeseries sampleTable "202512071900" hp1OnlyArgs).2 :=
  ⟨by decide, write_idempotent sampleTable "202512071900" hp1OnlyArgs
    (by decide) (by decide) ⟨rowA, by decide, rfl⟩⟩

/-- C4 counterexample: a single write supplying `total_heat_load`
against a table whose header lacks that column aborts mid-rewrite,
truncating the file: the second row's key `202512072000` is present
before the write and gone from the persisted table afterwards, so the
set of row keys is not unchanged. -/
theorem write_keys_changed_cex :
    "202512072000" ∈ rowKeys sampleTable ∧
    "202512072000" ∉
      rowKeys (applyWrites sampleTable [("202512071900", thlOnlyArgs)]) := by
  decide

/-- C4 (amended): across any sequence of write operations the
persisted table never gains a row key — the write path never creates
new rows; the key set can shrink when a write fails the column-schema
check mid-rewrite, so it is a subset of, rather than equal to, the
original. -/
theorem write_keys_subset (ops : List (String × WriteArgs)) :
    ∀ tbl : Table, tbl.WF →
      ∀ x ∈ rowKeys (applyWrites tbl ops), x ∈ rowKeys tbl := by
  induction ops with
  | nil => intro tbl _ x hx; exact hx
  | cons op ops ih =>
    intro tbl hwf x hx
    have hx2 : x ∈ rowKeys (applyWrites (write_timeseries tbl op.1 op.2).2 ops) := by
      unfold applyWrites at hx ⊢
      rw [List.foldl_cons] at hx
      exact hx
    have h1 := ih (write_timeseries tbl op.1 op.2).2
      (write_preserves_WF op.1 op.2 hwf) x hx2
    exact write_rowKeys_sub op.1 op.2 hwf x h1

/-- C4 (amended) witness: after a successful write on the sample
table, a key of the resulting table was already a key before. -/
theorem write_keys_subset_witness :
    sampleTable.WF ∧ "202512071900" ∈ rowKeys sampleTable :=
  ⟨by decide, write_keys_subset [("202512071900", hp1OnlyArgs)]
    sampleTable (by decide) "202512071900" (by decide)⟩

/-- C6: on a configuration document whose `power_consumption` sequence
has six entries, the heat-pump characteristics reader returns the
nine scalars — the six power points in document order, then the supply
temperature, the load minimum and the load maximum. -/
theorem get_hp_characteristics_spec (j hpj chj llj : JValue)
    (ps : List JValue) (t_supply load_min load_max : JValue)
    (h1 : jGet j "heat_pumps" = .ok hpj)
    (h2 : jGet hpj "characteristics" = .ok chj)
    (h3 : jGet chj "power_consumption" = .ok (.jarr ps))
    (h4 : jGet hpj "supply_temperature" = .ok t_supply)
    (h5 : jGet hpj "load_limits" = .ok llj)
    (h6 : jGet llj "min" = .ok load_min)
    (h7 : jGet llj "max" = .ok load_max)
    (hlen : ps.length = 6) :
    get_hp_characteristics (.parsed j) =
      .ok (ps ++ [t_supply, load_min, load_max]) ∧
    (ps ++ [t_supply, load_min, load_max]).length = 9 ∧
    (∀ i, i < 6 → (ps ++ [t_supply, load_min, load_max])[i]? = ps[i]?) ∧
    (ps ++ [t_supply, load_min, load_max])[6]? = some t_supply ∧
    (ps ++ [t_supply, load_min, load_max])[7]? = some load_min ∧
    (ps ++ [t_supply, load_min, load_max])[8]? = some load_max := by
  refine ⟨?_, ?_, ?_, ?_, ?_, ?_⟩
  · simp [get_hp_characteristics, loadConfig, Bind.bind, Except.bind,
      h1, h2, h3, h4, h5, h6, h7, pure, Except.pure]
  · simp [hlen]
  · intro i hi
    exact List.getElem?_append_left (by rw [hlen]; exact hi)
  · rw [List.getElem?_append_right (by simp [hlen])]
    simp [hlen]
  · rw [List.getElem?_append_right (by simp [hlen])]
    simp [hlen]
  · rw [List.getElem?_append_right (by simp [hlen])]
    simp [hlen]

/-- C6 witness: the reader applied to a concrete parsed configuration
document returns the nine scalars in order. -/
theorem get_hp_characteristics_spec_witness :
    get_hp_characteristics (.parsed sampleConfig) =
      .ok [.jnum 10, .jnum 20, .jnum 30, .jnum 40, .jnum 50, .jnum 60,
           .jnum 7, .jnum 20, .jnum 100] :=
  (get_hp_characteristics_spec sampleConfig
    (.jobj [("count", .jint 2),
      ("characteristics", .jobj [("power_consumption",
        .jarr [.jnum 10, .jnum 20, .jnum 30, .jnum 40, .jnum 50, .jnum 60])]),
      ("supply_temperature", .jnum 7),
      ("load_limits", .jobj [("min", .jnum 20), ("max", .jnum 100)])])
    (.jobj [("power_consumption",
      .jarr [.jnum 10, .jnum 20, .jnum 30, .jnum 40, .jnum 50, .jnum 60])])
    (.jobj [("min", .jnum 20), ("max", .jnum 100)])
    [.jnum 10, .jnum 20, .jnum 30, .jnum 40, .jnum 50, .jnum 60]
    (.jnum 7) (.jnum 20) (.jnum 100)
    rfl rfl rfl rfl rfl rfl rfl rfl).1

/-- C9: the unit-count reader returns exactly the value stored at
`heat_pumps.count`; it fails with a `NotFoundError` when the document
is absent or either field is absent, and with a `ParseError` when the
document is malformed. -/
theorem get_equipment_count_spec (j hpj : JValue) (n : Int) :
    (get_equipment_count .missing = .error .fileNotFound ∧
      Err.fileNotFound.isNotFoundError = true) ∧
    (get_equipment_count .malformed = .error .jsonParseError ∧
      Err.jsonParseError.isParseOrIoError = true) ∧
    (jGet j "heat_pumps" = .ok hpj → jGet hpj "count" = .ok (.jint n) →
      get_equipment_count (.parsed j) = .ok (.jint n)) ∧
    (jGet j "heat_pumps" = .error (.configKeyError "heat_pumps") →
      get_equipment_count (.parsed j) =
        .error (.configKeyError "heat_pumps") ∧
      (Err.configKeyError "heat_pumps").isNotFoundError = true) ∧
    (jGet j "heat_pumps" = .ok hpj →
      jGet hpj "count" = .error (.configKeyError "count") →
      get_equipment_count (.parsed j) = .error (.configKeyError "count") ∧
      (Err.configKeyError "count").isNotFoundError = true) := by
  refine ⟨⟨rfl, rfl⟩, ⟨rfl, rfl⟩, ?_, ?_, ?_⟩
  · intro h1 h2
    simp [get_equipment_count, loadConfig, Bind.bind, Except.bind, h1, h2]
  · intro h1
    refine ⟨?_, rfl⟩
    simp [get_equipment_count, loadConfig, Bind.bind, Except.bind, h1]
  · intro h1 h2
    refine ⟨?_, rfl⟩
    simp [get_equipment_count, loadConfig, Bind.bind, Except.bind, h1, h2]

/-- C9 witness: on a concrete document storing `heat_pumps.count = 2`
the reader returns `2`, and the failure cases evaluate as stated. -/
theorem get_equipment_count_spec_witness :
    get_equipment_count (.parsed sampleConfig) = .ok (.jint 2) ∧
    get_equipment_count .missing = .error .fileNotFound :=
  ⟨(get_equipment_count_spec sampleConfig
      (.jobj [("count", .jint 2),
        ("characteristics", .jobj [("power_consumption",
          .jarr [.jnum 10, .jnum 20, .jnum 30, .jnum 40, .jnum 50, .jnum 60])]),
        ("supply_temperature", .jnum 7),
        ("load_limits", .jobj [("min", .jnum 20), ("max", .jnum 100)])])
      2).2.2.1 rfl rfl,
   (get_equipment_count_spec sampleConfig (.jobj []) 0).1.1⟩
